import Mathlib

/-!
Shallow embedding of the PR review service
(`internal/store/store.go`, `internal/service/service.go`,
`internal/handlers/handlers.go`).

The relational store is modelled as an in-memory state (`StoreState`);
each SQL helper of `PostgresStore` becomes a pure function over it.
Timestamps (`time.Now()`) are passed in as explicit `now : Nat`
arguments.  Randomness (`rand.Shuffle`, `rand.Intn`) is passed in as an
explicit shuffle function / index argument.  The base model treats
storage as infallible, so its only errors are the service-level
sentinel errors declared at the top of `service.go`; the `*Fallible`
variants additionally thread a per-storage-call fault oracle and
reproduce every `if err != nil` early return of the Go code, so that
mid-sequence storage failures (and the partial commits they leave
behind) are observable.
-/

/-- `store.PullRequestStatus`: the two status constants `"OPEN"` and
`"MERGED"` of `store.go`. -/
inductive PRStatus where
  | OPEN
  | MERGED
deriving DecidableEq, Repr

/-- `store.Team` (`name`, `created_at`). -/
structure Team where
  name : String
  createdAt : Nat
deriving DecidableEq, Repr

/-- `store.User` (`user_id`, `username`, `is_active`, `team_name`,
`created_at`). -/
structure User where
  userID : String
  username : String
  isActive : Bool
  teamName : String
  createdAt : Nat
deriving DecidableEq, Repr

/-- `store.PullRequest`; `MergedAt *time.Time` becomes `Option Nat`. -/
structure PullRequest where
  pullRequestID : String
  pullRequestName : String
  authorID : String
  status : PRStatus
  createdAt : Nat
  mergedAt : Option Nat
deriving DecidableEq, Repr

/-- `service.TeamMember` (the request-side member record). -/
structure TeamMember where
  userID : String
  username : String
  isActive : Bool
deriving DecidableEq, Repr

/-- `service.PullRequestWithReviewers`. -/
structure PullRequestWithReviewers where
  pullRequest : PullRequest
  assignedReviewers : List User
deriving DecidableEq, Repr

/-- The sentinel errors declared in `service.go`. -/
inductive SvcError where
  | ErrTeamExists
  | ErrPRExists
  | ErrPRMerged
  | ErrNotAssigned
  | ErrNoCandidate
  | ErrNotFound
deriving DecidableEq, Repr

/-- The database state: the four tables of `migrations/init.sql`.
`prReviewers` holds the `pr_reviewers` edges as
`(pull_request_id, user_id)` pairs (the `assigned_at` column is never
read by any query, so it is not modelled). -/
structure StoreState where
  teams : List Team
  users : List User
  prs : List PullRequest
  prReviewers : List (String × String)
deriving DecidableEq, Repr

/-- The empty database. -/
def StoreState.empty : StoreState :=
  { teams := [], users := [], prs := [], prReviewers := [] }

namespace store

/-- `PostgresStore.GetTeam`: `SELECT ... FROM teams WHERE name = $1`;
`sql.ErrNoRows` becomes `none`. -/
def GetTeam (st : StoreState) (name : String) : Option Team :=
  st.teams.find? (fun t => t.name == name)

/-- `PostgresStore.CreateTeam`: `INSERT INTO teams (name, created_at)
VALUES ($1, now)`. -/
def CreateTeam (st : StoreState) (name : String) (now : Nat) : StoreState :=
  { st with teams := st.teams ++ [{ name := name, createdAt := now }] }

/-- `PostgresStore.GetTeamMembers`: `SELECT ... FROM users WHERE
team_name = $1`. -/
def GetTeamMembers (st : StoreState) (teamName : String) : List User :=
  st.users.filter (fun u => u.teamName == teamName)

/-- `PostgresStore.CreateOrUpdateUser`: insert, or on `user_id`
conflict update `username`, `is_active`, `team_name` (`created_at` is
kept). -/
def CreateOrUpdateUser (st : StoreState) (user : User) (now : Nat) : StoreState :=
  if st.users.any (fun u => u.userID == user.userID) then
    { st with users := st.users.map (fun u =>
        if u.userID == user.userID then
          { u with username := user.username, isActive := user.isActive,
                   teamName := user.teamName }
        else u) }
  else
    { st with users := st.users ++ [{ user with createdAt := now }] }

/-- `PostgresStore.GetUser`: `SELECT ... FROM users WHERE user_id = $1`;
`sql.ErrNoRows` becomes `none`. -/
def GetUser (st : StoreState) (userID : String) : Option User :=
  st.users.find? (fun u => u.userID == userID)

/-- `PostgresStore.UpdateUser`: `UPDATE users SET username, is_active,
team_name WHERE user_id = $4`. -/
def UpdateUser (st : StoreState) (user : User) : StoreState :=
  { st with users := st.users.map (fun u =>
      if u.userID == user.userID then
        { u with username := user.username, isActive := user.isActive,
                 teamName := user.teamName }
      else u) }

/-- `PostgresStore.GetActiveTeamMembers`: `SELECT ... FROM users WHERE
team_name = $1 AND is_active = true [AND user_id != $2]`. -/
def GetActiveTeamMembers (st : StoreState) (teamName : String)
    (excludeUserID : Option String) : List User :=
  match excludeUserID with
  | some ex =>
      st.users.filter (fun u =>
        u.teamName == teamName && u.isActive && u.userID != ex)
  | none =>
      st.users.filter (fun u => u.teamName == teamName && u.isActive)

/-- `PostgresStore.CreatePR`: `INSERT INTO pull_requests ...` (new rows
never carry `merged_at`). -/
def CreatePR (st : StoreState) (pr : PullRequest) : StoreState :=
  { st with prs := st.prs ++ [pr] }

/-- `PostgresStore.GetPR`: `SELECT ... FROM pull_requests WHERE
pull_request_id = $1`; `sql.ErrNoRows` becomes `none`. -/
def GetPR (st : StoreState) (prID : String) : Option PullRequest :=
  st.prs.find? (fun p => p.pullRequestID == prID)

/-- `PostgresStore.UpdatePR`: `UPDATE pull_requests SET
pull_request_name, status, merged_at WHERE pull_request_id = $4`. -/
def UpdatePR (st : StoreState) (pr : PullRequest) : StoreState :=
  { st with prs := st.prs.map (fun p =>
      if p.pullRequestID == pr.pullRequestID then
        { p with pullRequestName := pr.pullRequestName,
                 status := pr.status, mergedAt := pr.mergedAt }
      else p) }

/-- `PostgresStore.AssignReviewer`: `INSERT INTO pr_reviewers
(pull_request_id, user_id, assigned_at) VALUES ...`. -/
def AssignReviewer (st : StoreState) (prID userID : String) : StoreState :=
  { st with prReviewers := st.prReviewers ++ [(prID, userID)] }

/-- `PostgresStore.GetPRReviewers`: join of `users` with `pr_reviewers`
on `user_id`, restricted to `pull_request_id = $1`. -/
def GetPRReviewers (st : StoreState) (prID : String) : List User :=
  st.users.filter (fun u =>
    st.prReviewers.any (fun e => e.1 == prID && e.2 == u.userID))

/-- `PostgresStore.RemoveReviewer`: `DELETE FROM pr_reviewers WHERE
pull_request_id = $1 AND user_id = $2`. -/
def RemoveReviewer (st : StoreState) (prID userID : String) : StoreState :=
  { st with prReviewers := st.prReviewers.filter (fun e =>
      !(e.1 == prID && e.2 == userID)) }

/-- `PostgresStore.GetUserAssignedPRs`: join of `pull_requests` with
`pr_reviewers`, restricted to `user_id = $1`. -/
def GetUserAssignedPRs (st : StoreState) (userID : String) : List PullRequest :=
  st.prs.filter (fun p =>
    st.prReviewers.any (fun e => e.1 == p.pullRequestID && e.2 == userID))

end store

namespace service

/-- `Service.CreateOrUpdateTeam`: reject an existing team name, else
create the team and upsert every supplied member under it.  The
returned `Team` is the service-side struct (its `CreatedAt` field is
the Go zero value; the store stamps its own `created_at`). -/
def CreateOrUpdateTeam (st : StoreState) (teamName : String)
    (members : List TeamMember) (now : Nat) :
    StoreState × Except SvcError Team :=
  match store.GetTeam st teamName with
  | some _ => (st, .error .ErrTeamExists)
  | none =>
      let st1 := store.CreateTeam st teamName now
      let st2 := members.foldl (fun s m =>
        store.CreateOrUpdateUser s
          { userID := m.userID, username := m.username,
            isActive := m.isActive, teamName := teamName, createdAt := 0 }
          now) st1
      (st2, .ok { name := teamName, createdAt := 0 })

/-- `Service.GetTeam`: `NotFound` when absent, else the team and its
full member list. -/
def GetTeam (st : StoreState) (teamName : String) :
    StoreState × Except SvcError (Team × List User) :=
  match store.GetTeam st teamName with
  | none => (st, .error .ErrNotFound)
  | some team => (st, .ok (team, store.GetTeamMembers st teamName))

/-- Outcome of `Service.SetUserActive`.  `nilDereference` records the
path where `store.GetUser` returns `(nil, nil)` for a missing user and
the service, which checks only `err != nil`, then executes
`user.IsActive = isActive` on the nil pointer — a runtime panic in Go,
not an error return. -/
inductive SetUserActiveResult where
  | ok (u : User)
  | err (e : SvcError)
  | nilDereference
deriving DecidableEq, Repr

/-- `Service.SetUserActive`, translated line by line: the missing-user
case reaches the nil-pointer write (there is no `user == nil` check,
unlike `CreatePR`/`MergePR`/`ReassignReviewer`). -/
def SetUserActive (st : StoreState) (userID : String) (isActive : Bool) :
    StoreState × SetUserActiveResult :=
  match store.GetUser st userID with
  | none => (st, .nilDereference)
  | some user =>
      let user2 := { user with isActive := isActive }
      (store.UpdateUser st user2, .ok user2)

/-- `Service.CreatePR`.  `rand.Shuffle` over the copied candidate slice
is modelled by the explicit `shuffle` argument; the service's
`time.Now()` is `now`. -/
def CreatePR (st : StoreState) (prID prName authorID : String) (now : Nat)
    (shuffle : List User → List User) :
    StoreState × Except SvcError PullRequestWithReviewers :=
  match store.GetPR st prID with
  | some _ => (st, .error .ErrPRExists)
  | none =>
      match store.GetUser st authorID with
      | none => (st, .error .ErrNotFound)
      | some author =>
          let activeMembers :=
            store.GetActiveTeamMembers st author.teamName (some authorID)
          let reviewers :=
            if activeMembers.length > 0 then
              (shuffle activeMembers).take (min 2 activeMembers.length)
            else []
          let pr : PullRequest :=
            { pullRequestID := prID, pullRequestName := prName,
              authorID := authorID, status := .OPEN,
              createdAt := now, mergedAt := none }
          let st1 := store.CreatePR st pr
          let st2 := reviewers.foldl
            (fun s r => store.AssignReviewer s prID r.userID) st1
          (st2, .ok { pullRequest := pr, assignedReviewers := reviewers })

/-- `Service.MergePR`: `NotFound` when absent; when already `MERGED`
return the stored PR and its reviewers without writing; otherwise set
status and `merged_at` and persist. -/
def MergePR (st : StoreState) (prID : String) (now : Nat) :
    StoreState × Except SvcError PullRequestWithReviewers :=
  match store.GetPR st prID with
  | none => (st, .error .ErrNotFound)
  | some pr =>
      if pr.status = .MERGED then
        (st, .ok { pullRequest := pr,
                   assignedReviewers := store.GetPRReviewers st prID })
      else
        let pr2 := { pr with status := .MERGED, mergedAt := some now }
        let st1 := store.UpdatePR st pr2
        (st1, .ok { pullRequest := pr2,
                    assignedReviewers := store.GetPRReviewers st1 prID })

/-- `Service.ReassignReviewer`.  `rand.Intn(len(availableMembers))` is
modelled by indexing with `pick % length` (any index is reachable). -/
def ReassignReviewer (st : StoreState) (prID oldUserID : String) (pick : Nat) :
    StoreState × Except SvcError (PullRequestWithReviewers × String) :=
  match store.GetPR st prID with
  | none => (st, .error .ErrNotFound)
  | some pr =>
      if pr.status = .MERGED then (st, .error .ErrPRMerged)
      else
        let currentReviewers := store.GetPRReviewers st prID
        if !(currentReviewers.any (fun r => r.userID == oldUserID)) then
          (st, .error .ErrNotAssigned)
        else
          match store.GetUser st oldUserID with
          | none => (st, .error .ErrNotFound)
          | some oldReviewer =>
              let activeMembers := store.GetActiveTeamMembers st
                oldReviewer.teamName (some pr.authorID)
              let availableMembers := activeMembers.filter (fun m =>
                !(currentReviewers.any (fun r => r.userID == m.userID)) &&
                m.userID != oldUserID)
              match availableMembers with
              | [] => (st, .error .ErrNoCandidate)
              | a :: rest =>
                  let newReviewer := (a :: rest).get
                    ⟨pick % (rest.length + 1),
                     Nat.mod_lt pick (Nat.succ_pos rest.length)⟩
                  let st1 := store.RemoveReviewer st prID oldUserID
                  let st2 := store.AssignReviewer st1 prID newReviewer.userID
                  let updatedReviewers := store.GetPRReviewers st2 prID
                  (st2, .ok ({ pullRequest := pr,
                               assignedReviewers := updatedReviewers },
                             newReviewer.userID))

/-- `Service.GetUserAssignedPRs`: every PR the user reviews, each
paired with that PR's full reviewer list; no existence check on the
user, never an error. -/
def GetUserAssignedPRs (st : StoreState) (userID : String) :
    StoreState × Except SvcError (List PullRequestWithReviewers) :=
  let prs := store.GetUserAssignedPRs st userID
  (st, .ok (prs.map (fun p =>
    { pullRequest := p,
      assignedReviewers := store.GetPRReviewers st p.pullRequestID })))

/-- `Service.GetPR`: `NotFound` when absent, else the PR with its
reviewer set. -/
def GetPR (st : StoreState) (prID : String) :
    StoreState × Except SvcError PullRequestWithReviewers :=
  match store.GetPR st prID with
  | none => (st, .error .ErrNotFound)
  | some pr =>
      (st, .ok { pullRequest := pr,
                 assignedReviewers := store.GetPRReviewers st prID })

end service

/-- An HTTP reply as the handlers build it: a status code and, on
failure, the machine-readable error code. -/
structure HTTPResponse where
  status : Nat
  errorCode : Option String
deriving DecidableEq, Repr

namespace handlers

/-- `handlers.handleServiceError`: the switch mapping service sentinel
errors to status/code pairs (note `ErrTeamExists` is not a case and
falls to the default 500 arm). -/
def handleServiceError (e : SvcError) : HTTPResponse :=
  match e with
  | .ErrPRExists => { status := 409, errorCode := some "PR_EXISTS" }
  | .ErrPRMerged => { status := 409, errorCode := some "PR_MERGED" }
  | .ErrNotAssigned => { status := 409, errorCode := some "NOT_ASSIGNED" }
  | .ErrNoCandidate => { status := 409, errorCode := some "NO_CANDIDATE" }
  | .ErrNotFound => { status := 404, errorCode := some "NOT_FOUND" }
  | _ => { status := 500, errorCode := some "INTERNAL_ERROR" }

/-- `handlers.PostTeamAdd` (body shaping elided): the team-exists
failure is answered inline with status 400 and code `TEAM_EXISTS`,
bypassing `handleServiceError`; other failures give 500; success
re-reads the team and answers 201. -/
def PostTeamAdd (st : StoreState) (teamName : String)
    (members : List TeamMember) (now : Nat) : StoreState × HTTPResponse :=
  match service.CreateOrUpdateTeam st teamName members now with
  | (st1, .error e) =>
      if e = .ErrTeamExists then
        (st1, { status := 400, errorCode := some "TEAM_EXISTS" })
      else
        (st1, { status := 500, errorCode := some "INTERNAL_ERROR" })
  | (st1, .ok _) =>
      match (service.GetTeam st1 teamName).2 with
      | .error _ => (st1, { status := 500, errorCode := some "INTERNAL_ERROR" })
      | .ok _ => (st1, { status := 201, errorCode := none })

end handlers

/-- Error type of the fallible service model: one of the service's
sentinel errors, or a storage error surfaced verbatim (the Go code
returns the raw `err` of the failing store call). -/
inductive OpError where
  | svc (e : SvcError)
  | storage
deriving DecidableEq, Repr

/-- Outcome of the fallible `Service.SetUserActive`: success, a failed
storage call, or the nil-pointer write on a missing user. -/
inductive SetUserActiveResultF where
  | ok (u : User)
  | storage
  | nilDereference
deriving DecidableEq, Repr

namespace service

/-- The member-upsert loop of `Service.CreateOrUpdateTeam` with
fallible storage: `failAt k` means the k-th storage call of the
enclosing operation returns a non-nil error.  A failed INSERT/UPDATE
commits nothing itself, and the Go loop returns the error at once,
keeping everything already written. -/
def upsertMembersFallible (st : StoreState) (teamName : String)
    (members : List TeamMember) (now : Nat) (failAt : Nat → Bool) (k : Nat) :
    StoreState × Except OpError Unit :=
  match members with
  | [] => (st, .ok ())
  | m :: rest =>
      if failAt k then (st, .error .storage)
      else upsertMembersFallible
        (store.CreateOrUpdateUser st
          { userID := m.userID, username := m.username,
            isActive := m.isActive, teamName := teamName, createdAt := 0 }
          now)
        teamName rest now failAt (k + 1)

/-- `Service.CreateOrUpdateTeam` with fallible storage.  Call 0 is
`GetTeam`: on its error the Go code does NOT return (the guard is
`err == nil && existingTeam != nil`) and proceeds to `CreateTeam`
(call 1); calls 2.. are the member upserts. -/
def CreateOrUpdateTeamFallible (st : StoreState) (teamName : String)
    (members : List TeamMember) (now : Nat) (failAt : Nat → Bool) :
    StoreState × Except OpError Team :=
  if !(failAt 0) && (store.GetTeam st teamName).isSome then
    (st, .error (.svc .ErrTeamExists))
  else if failAt 1 then (st, .error .storage)
  else
    let st1 := store.CreateTeam st teamName now
    match upsertMembersFallible st1 teamName members now failAt 2 with
    | (st2, .error e) => (st2, .error e)
    | (st2, .ok _) => (st2, .ok { name := teamName, createdAt := 0 })

/-- `Service.SetUserActive` with fallible storage (call 0 `GetUser`,
call 1 `UpdateUser`); the missing-user path still reaches the
nil-pointer write. -/
def SetUserActiveFallible (st : StoreState) (userID : String)
    (isActive : Bool) (failAt : Nat → Bool) :
    StoreState × SetUserActiveResultF :=
  if failAt 0 then (st, .storage)
  else
    match store.GetUser st userID with
    | none => (st, .nilDereference)
    | some user =>
        if failAt 1 then (st, .storage)
        else
          let user2 := { user with isActive := isActive }
          (store.UpdateUser st user2, .ok user2)

/-- The reviewer-assignment loop of `Service.CreatePR` with fallible
storage: on a failed `AssignReviewer` the Go code returns the error
immediately, keeping the PR row and the edges already inserted. -/
def assignReviewersFallible (st : StoreState) (prID : String)
    (reviewers : List User) (failAt : Nat → Bool) (k : Nat) :
    StoreState × Except OpError Unit :=
  match reviewers with
  | [] => (st, .ok ())
  | r :: rest =>
      if failAt k then (st, .error .storage)
      else assignReviewersFallible (store.AssignReviewer st prID r.userID)
        prID rest failAt (k + 1)

/-- `Service.CreatePR` with fallible storage: call 0 `GetPR`, call 1
`GetUser`, call 2 `GetActiveTeamMembers`, call 3 the PR insert, calls
4.. the reviewer-edge inserts.  Every `if err != nil` early return of
`service.go` is reproduced with the state as committed so far. -/
def CreatePRFallible (st : StoreState) (prID prName authorID : String)
    (now : Nat) (shuffle : List User → List User) (failAt : Nat → Bool) :
    StoreState × Except OpError PullRequestWithReviewers :=
  if failAt 0 then (st, .error .storage)
  else
    match store.GetPR st prID with
    | some _ => (st, .error (.svc .ErrPRExists))
    | none =>
        if failAt 1 then (st, .error .storage)
        else
          match store.GetUser st authorID with
          | none => (st, .error (.svc .ErrNotFound))
          | some author =>
              if failAt 2 then (st, .error .storage)
              else
                let activeMembers :=
                  store.GetActiveTeamMembers st author.teamName (some authorID)
                let reviewers :=
                  if activeMembers.length > 0 then
                    (shuffle activeMembers).take (min 2 activeMembers.length)
                  else []
                let pr : PullRequest :=
                  { pullRequestID := prID, pullRequestName := prName,
                    authorID := authorID, status := .OPEN,
                    createdAt := now, mergedAt := none }
                if failAt 3 then (st, .error .storage)
                else
                  let st1 := store.CreatePR st pr
                  match assignReviewersFallible st1 prID reviewers failAt 4 with
                  | (st2, .error e) => (st2, .error e)
                  | (st2, .ok _) =>
                      (st2, .ok { pullRequest := pr,
                                  assignedReviewers := reviewers })

/-- `Service.MergePR` with fallible storage: call 0 `GetPR`; in the
already-merged branch call 1 is `GetPRReviewers`; otherwise call 1 is
`UpdatePR` and call 2 the final `GetPRReviewers`, whose failure is
reported after the merge write has been committed. -/
def MergePRFallible (st : StoreState) (prID : String) (now : Nat)
    (failAt : Nat → Bool) :
    StoreState × Except OpError PullRequestWithReviewers :=
  if failAt 0 then (st, .error .storage)
  else
    match store.GetPR st prID with
    | none => (st, .error (.svc .ErrNotFound))
    | some pr =>
        if pr.status = .MERGED then
          if failAt 1 then (st, .error .storage)
          else (st, .ok { pullRequest := pr,
                          assignedReviewers := store.GetPRReviewers st prID })
        else
          let pr2 := { pr with status := .MERGED, mergedAt := some now }
          if failAt 1 then (st, .error .storage)
          else
            let st1 := store.UpdatePR st pr2
            if failAt 2 then (st1, .error .storage)
            else (st1, .ok { pullRequest := pr2,
                             assignedReviewers := store.GetPRReviewers st1 prID })

/-- `Service.ReassignReviewer` with fallible storage: calls 0-3 are
the reads (`GetPR`, `GetPRReviewers`, `GetUser`,
`GetActiveTeamMembers`), call 4 `RemoveReviewer`, call 5
`AssignReviewer` (its failure after the remove is the spec's own §5
caveat), call 6 the final `GetPRReviewers`. -/
def ReassignReviewerFallible (st : StoreState) (prID oldUserID : String)
    (pick : Nat) (failAt : Nat → Bool) :
    StoreState × Except OpError (PullRequestWithReviewers × String) :=
  if failAt 0 then (st, .error .storage)
  else
    match store.GetPR st prID with
    | none => (st, .error (.svc .ErrNotFound))
    | some pr =>
        if pr.status = .MERGED then (st, .error (.svc .ErrPRMerged))
        else if failAt 1 then (st, .error .storage)
        else
          let currentReviewers := store.GetPRReviewers st prID
          if !(currentReviewers.any (fun r => r.userID == oldUserID)) then
            (st, .error (.svc .ErrNotAssigned))
          else if failAt 2 then (st, .error .storage)
          else
            match store.GetUser st oldUserID with
            | none => (st, .error (.svc .ErrNotFound))
            | some oldReviewer =>
                if failAt 3 then (st, .error .storage)
                else
                  let activeMembers := store.GetActiveTeamMembers st
                    oldReviewer.teamName (some pr.authorID)
                  let availableMembers := activeMembers.filter (fun m =>
                    !(currentReviewers.any (fun r => r.userID == m.userID)) &&
                    m.userID != oldUserID)
                  match availableMembers with
                  | [] => (st, .error (.svc .ErrNoCandidate))
                  | a :: rest =>
                      let newReviewer := (a :: rest).get
                        ⟨pick % (rest.length + 1),
                         Nat.mod_lt pick (Nat.succ_pos rest.length)⟩
                      if failAt 4 then (st, .error .storage)
                      else
                        let st1 := store.RemoveReviewer st prID oldUserID
                        if failAt 5 then (st1, .error .storage)
                        else
                          let st2 := store.AssignReviewer st1 prID
                            newReviewer.userID
                          if failAt 6 then (st2, .error .storage)
                          else
                            let updatedReviewers :=
                              store.GetPRReviewers st2 prID
                            (st2, .ok ({ pullRequest := pr,
                                         assignedReviewers :=
                                           updatedReviewers },
                                       newReviewer.userID))

end service

/-! Concrete scenario states, built by running the engine operations
themselves (so reachability holds by construction).  Scenario 1: team
`backend` with four active members, `A` authors `pr1`. Scenario 2:
two-person team `t2`, `A` authors `pr2` which is then merged. -/

/-- Team `backend` with members `A`, `B`, `C`, `D`, all active. -/
def stT : StoreState :=
  (service.CreateOrUpdateTeam StoreState.empty "backend"
    [{ userID := "A", username := "a", isActive := true },
     { userID := "B", username := "b", isActive := true },
     { userID := "C", username := "c", isActive := true },
     { userID := "D", username := "d", isActive := true }] 0).1

/-- `A` creates `pr1` on team `backend` (identity shuffle: reviewers
`B`, `C`). -/
def stP : StoreState :=
  (service.CreatePR stT "pr1" "fix" "A" 1 id).1

/-- Two-person team `t2` with active members `A2`, `B2`. -/
def stT2 : StoreState :=
  (service.CreateOrUpdateTeam StoreState.empty "t2"
    [{ userID := "A2", username := "a", isActive := true },
     { userID := "B2", username := "b", isActive := true }] 0).1

/-- `A2` creates `pr2` on team `t2` (sole eligible reviewer `B2`). -/
def stP2 : StoreState :=
  (service.CreatePR stT2 "pr2" "n" "A2" 1 id).1

/-- `pr2` merged. -/
def stM2 : StoreState :=
  (service.MergePR stP2 "pr2" 2).1

/-- The store after reassigning reviewer `B` away from `pr1`
(replacement `D`). -/
def stR : StoreState :=
  (service.ReassignReviewer stP "pr1" "B" 0).1

/-- The result record of that reassignment. -/
def resR : PullRequestWithReviewers :=
  { pullRequest :=
      { pullRequestID := "pr1", pullRequestName := "fix", authorID := "A",
        status := .OPEN, createdAt := 1, mergedAt := none },
    assignedReviewers := store.GetPRReviewers stR "pr1" }

/-- One engine operation applied to the store: the state transition of
each public `Service` method (read-only methods do not change the
state and are omitted).  `rand.Shuffle` permutes the candidate slice,
so the `createPR` step carries the permutation fact about `shuffle`. -/
inductive Step : StoreState → StoreState → Prop where
  | createTeam (st : StoreState) (teamName : String)
      (members : List TeamMember) (now : Nat) :
      Step st (service.CreateOrUpdateTeam st teamName members now).1
  | setUserActive (st : StoreState) (userID : String) (isActive : Bool) :
      Step st (service.SetUserActive st userID isActive).1
  | createPR (st : StoreState) (prID prName authorID : String) (now : Nat)
      (shuffle : List User → List User)
      (hsh : ∀ l, (shuffle l).Perm l) :
      Step st (service.CreatePR st prID prName authorID now shuffle).1
  | mergePR (st : StoreState) (prID : String) (now : Nat) :
      Step st (service.MergePR st prID now).1
  | reassign (st : StoreState) (prID oldUserID : String) (pick : Nat) :
      Step st (service.ReassignReviewer st prID oldUserID pick).1

/-- States reachable from the empty database by engine operations. -/
inductive Reachable : StoreState → Prop where
  | init : Reachable StoreState.empty
  | step {st st2 : StoreState} : Reachable st → Step st st2 → Reachable st2

/-- The inductive invariant of reachable states: key uniqueness of the
`users` and `pull_requests` tables, referential integrity of the
`pr_reviewers` edges, the author-is-never-a-reviewer property, and the
`merged_at`-iff-`MERGED` property. -/
structure StoreInv (st : StoreState) : Prop where
  usersNodup : (st.users.map User.userID).Nodup
  prsNodup : (st.prs.map PullRequest.pullRequestID).Nodup
  edgesHavePR : ∀ e ∈ st.prReviewers,
    ∃ p ∈ st.prs, p.pullRequestID = e.1
  edgesHaveUser : ∀ e ∈ st.prReviewers,
    ∃ u ∈ st.users, u.userID = e.2
  authorNotReviewer : ∀ p ∈ st.prs,
    (p.pullRequestID, p.authorID) ∉ st.prReviewers
  mergedIff : ∀ p ∈ st.prs, p.mergedAt.isSome ↔ p.status = .MERGED

/-! Helper lemmas. -/

lemma foldl_preserves_prs_edges {α : Type} (g : StoreState → α → StoreState)
    (hg : ∀ s a, (g s a).prs = s.prs ∧ (g s a).prReviewers = s.prReviewers)
    (l : List α) (st : StoreState) :
    (l.foldl g st).prs = st.prs ∧ (l.foldl g st).prReviewers = st.prReviewers := by
  induction l generalizing st with
  | nil => exact ⟨rfl, rfl⟩
  | cons a t ih =>
      simp only [List.foldl_cons]
      rcases ih (g st a) with ⟨h1, h2⟩
      rcases hg st a with ⟨h3, h4⟩
      exact ⟨h1.trans h3, h2.trans h4⟩

lemma foldl_inv {α : Type} (P : StoreState → Prop) (g : StoreState → α → StoreState)
    (hg : ∀ s a, P s → P (g s a)) (l : List α) (st : StoreState) (h : P st) :
    P (l.foldl g st) := by
  induction l generalizing st with
  | nil => exact h
  | cons a t ih => exact ih (g st a) (hg st a h)

lemma CreateOrUpdateUser_prs (st : StoreState) (u : User) (now : Nat) :
    (store.CreateOrUpdateUser st u now).prs = st.prs := by
  unfold store.CreateOrUpdateUser
  split <;> rfl

lemma CreateOrUpdateUser_prReviewers (st : StoreState) (u : User) (now : Nat) :
    (store.CreateOrUpdateUser st u now).prReviewers = st.prReviewers := by
  unfold store.CreateOrUpdateUser
  split <;> rfl

lemma foldl_assign_eq (l : List User) (st : StoreState) (prID : String) :
    l.foldl (fun s r => store.AssignReviewer s prID r.userID) st =
      { st with prReviewers :=
          st.prReviewers ++ l.map (fun r => (prID, r.userID)) } := by
  induction l generalizing st with
  | nil => simp
  | cons a t ih =>
      simp only [List.foldl_cons, List.map_cons]
      rw [ih]
      simp [store.AssignReviewer, List.append_assoc]

lemma GetPR_eq_none_iff (st : StoreState) (prID : String) :
    store.GetPR st prID = none ↔ ∀ p ∈ st.prs, p.pullRequestID ≠ prID := by
  unfold store.GetPR
  rw [List.find?_eq_none]
  constructor
  · intro h p hp
    have := h p hp
    simpa using this
  · intro h p hp
    simpa using h p hp

lemma GetPR_eq_some (st : StoreState) (prID : String) (pr : PullRequest)
    (h : store.GetPR st prID = some pr) :
    pr ∈ st.prs ∧ pr.pullRequestID = prID := by
  unfold store.GetPR at h
  refine ⟨List.mem_of_find?_eq_some h, ?_⟩
  have := List.find?_some h
  simpa using this

lemma GetUser_eq_some (st : StoreState) (userID : String) (u : User)
    (h : store.GetUser st userID = some u) :
    u ∈ st.users ∧ u.userID = userID := by
  unfold store.GetUser at h
  refine ⟨List.mem_of_find?_eq_some h, ?_⟩
  have := List.find?_some h
  simpa using this

lemma mem_GetActiveTeamMembers (st : StoreState) (tn : String) (ex : String)
    (u : User) (h : u ∈ store.GetActiveTeamMembers st tn (some ex)) :
    u ∈ st.users ∧ u.teamName = tn ∧ u.isActive = true ∧ u.userID ≠ ex := by
  unfold store.GetActiveTeamMembers at h
  rw [List.mem_filter] at h
  have h2 := h.2
  simp only [Bool.and_eq_true, beq_iff_eq, bne_iff_ne, ne_eq] at h2
  exact ⟨h.1, h2.1.1, h2.1.2, h2.2⟩

lemma find?_map_of_pred_eq {α : Type} (f : α → α) (p : α → Bool) (l : List α)
    (h : ∀ a, p (f a) = p a) : (l.map f).find? p = (l.find? p).map f := by
  induction l with
  | nil => rfl
  | cons a t ih =>
      simp only [List.map_cons, List.find?_cons, h a]
      cases p a <;> simp [ih]

lemma updUser_userID (u2 u : User) :
    (if u.userID == u2.userID then
       { u with username := u2.username, isActive := u2.isActive,
                teamName := u2.teamName }
     else u).userID = u.userID := by
  split <;> rfl

lemma map_update_userID (users : List User) (u2 : User) :
    ((users.map (fun u => if u.userID == u2.userID then
        { u with username := u2.username, isActive := u2.isActive,
                 teamName := u2.teamName }
      else u)).map User.userID) = users.map User.userID := by
  induction users with
  | nil => rfl
  | cons a t ih =>
      simp only [List.map_cons, ih, List.cons.injEq, and_true]
      exact updUser_userID u2 a

lemma StoreInv_UpdateUser (st : StoreState) (u2 : User) (h : StoreInv st) :
    StoreInv (store.UpdateUser st u2) := by
  unfold store.UpdateUser
  refine ⟨?_, h.prsNodup, h.edgesHavePR, ?_, h.authorNotReviewer, h.mergedIff⟩
  · have hm := map_update_userID st.users u2
    simp only [hm]
    exact h.usersNodup
  · intro e he
    obtain ⟨u, hu, hid⟩ := h.edgesHaveUser e he
    refine ⟨_, List.mem_map_of_mem _ hu, ?_⟩
    rw [updUser_userID]
    exact hid

lemma StoreInv_CreateOrUpdateUser (st : StoreState) (u : User) (now : Nat)
    (h : StoreInv st) : StoreInv (store.CreateOrUpdateUser st u now) := by
  unfold store.CreateOrUpdateUser
  split
  · exact StoreInv_UpdateUser st u h
  · rename_i hno
    have hnot : u.userID ∉ st.users.map User.userID := by
      intro hmem
      apply hno
      rw [List.any_eq_true]
      obtain ⟨x, hx, hxe⟩ := List.mem_map.mp hmem
      exact ⟨x, hx, by simp [hxe]⟩
    refine ⟨?_, h.prsNodup, h.edgesHavePR, ?_, h.authorNotReviewer, h.mergedIff⟩
    · simp only [List.map_append, List.map_cons, List.map_nil]
      rw [List.nodup_append]
      refine ⟨h.usersNodup, List.nodup_singleton _, ?_⟩
      intro a ha hb
      simp only [List.mem_singleton] at hb
      subst hb
      exact hnot ha
    · intro e he
      obtain ⟨x, hx, hxe⟩ := h.edgesHaveUser e he
      exact ⟨x, List.mem_append_left _ hx, hxe⟩

lemma StoreInv_CreateTeam (st : StoreState) (name : String) (now : Nat)
    (h : StoreInv st) : StoreInv (store.CreateTeam st name now) :=
  ⟨h.usersNodup, h.prsNodup, h.edgesHavePR, h.edgesHaveUser,
   h.authorNotReviewer, h.mergedIff⟩

lemma StoreInv_CreateOrUpdateTeam (st : StoreState) (teamName : String)
    (members : List TeamMember) (now : Nat) (h : StoreInv st) :
    StoreInv (service.CreateOrUpdateTeam st teamName members now).1 := by
  unfold service.CreateOrUpdateTeam
  cases hfind : store.GetTeam st teamName with
  | some t => exact h
  | none =>
      exact foldl_inv StoreInv _
        (fun s m hs => StoreInv_CreateOrUpdateUser s _ now hs) members _
        (StoreInv_CreateTeam st teamName now h)

lemma StoreInv_SetUserActive (st : StoreState) (userID : String) (b : Bool)
    (h : StoreInv st) : StoreInv (service.SetUserActive st userID b).1 := by
  unfold service.SetUserActive
  cases hfind : store.GetUser st userID with
  | none => exact h
  | some u => exact StoreInv_UpdateUser st _ h

lemma mem_selected {pool : List User} {shuffle : List User → List User}
    (hsh : (shuffle pool).Perm pool) {r : User}
    (hr : r ∈ (if pool.length > 0 then
        (shuffle pool).take (min 2 pool.length) else [])) :
    r ∈ pool := by
  split at hr
  · exact hsh.mem_iff.mp (List.take_subset _ _ hr)
  · cases hr

lemma StoreInv_CreatePR (st : StoreState) (prID prName authorID : String)
    (now : Nat) (shuffle : List User → List User)
    (hsh : ∀ l, (shuffle l).Perm l) (h : StoreInv st) :
    StoreInv (service.CreatePR st prID prName authorID now shuffle).1 := by
  unfold service.CreatePR
  cases hpr : store.GetPR st prID with
  | some p => exact h
  | none =>
      cases hau : store.GetUser st authorID with
      | none => exact h
      | some author =>
          have hfresh : ∀ p ∈ st.prs, p.pullRequestID ≠ prID :=
            (GetPR_eq_none_iff st prID).mp hpr
          simp only [foldl_assign_eq, store.CreatePR]
          set pool := store.GetActiveTeamMembers st author.teamName (some authorID)
            with hpool
          set reviewers := (if pool.length > 0 then
            (shuffle pool).take (min 2 pool.length) else []) with hrevs
          have hrmem : ∀ r ∈ reviewers, r ∈ st.users ∧ r.userID ≠ authorID := by
            intro r hr
            have := mem_GetActiveTeamMembers st author.teamName authorID r
              (mem_selected (hsh pool) hr)
            exact ⟨this.1, this.2.2.2⟩
          refine ⟨h.usersNodup, ?_, ?_, ?_, ?_, ?_⟩
          · simp only [List.map_append, List.map_cons, List.map_nil]
            rw [List.nodup_append]
            refine ⟨h.prsNodup, List.nodup_singleton _, ?_⟩
            intro a ha hb
            simp only [List.mem_singleton] at hb
            subst hb
            obtain ⟨p, hp, hpe⟩ := List.mem_map.mp ha
            exact hfresh p hp hpe
          · intro e he
            rcases List.mem_append.mp he with hold | hnew
            · obtain ⟨p, hp, hpe⟩ := h.edgesHavePR e hold
              exact ⟨p, List.mem_append_left _ hp, hpe⟩
            · obtain ⟨r, _, hre⟩ := List.mem_map.mp hnew
              refine ⟨_, List.mem_append_right _ (List.mem_singleton_self _), ?_⟩
              rw [← hre]
          · intro e he
            rcases List.mem_append.mp he with hold | hnew
            · exact h.edgesHaveUser e hold
            · obtain ⟨r, hr, hre⟩ := List.mem_map.mp hnew
              exact ⟨r, (hrmem r hr).1, by rw [← hre]⟩
          · intro p hp
            rcases List.mem_append.mp hp with hpold | hpnew
            · intro hcontra
              rcases List.mem_append.mp hcontra with hold | hnew
              · exact h.authorNotReviewer p hpold hold
              · obtain ⟨r, _, hre⟩ := List.mem_map.mp hnew
                have : p.pullRequestID = prID := by
                  have := congrArg Prod.fst hre
                  simpa using this.symm
                exact hfresh p hpold this
            · simp only [List.mem_singleton] at hpnew
              subst hpnew
              intro hcontra
              rcases List.mem_append.mp hcontra with hold | hnew
              · obtain ⟨p, hp, hpe⟩ := h.edgesHavePR _ hold
                exact hfresh p hp hpe
              · obtain ⟨r, hr, hre⟩ := List.mem_map.mp hnew
                have : r.userID = authorID := by
                  have := congrArg Prod.snd hre
                  simpa using this
                exact (hrmem r hr).2 this
          · intro p hp
            rcases List.mem_append.mp hp with hpold | hpnew
            · exact h.mergedIff p hpold
            · simp only [List.mem_singleton] at hpnew
              subst hpnew
              simp

lemma map_proj_of_preserve {α β : Type} (f : α → α) (g : α → β)
    (hf : ∀ a, g (f a) = g a) (l : List α) : (l.map f).map g = l.map g := by
  induction l with
  | nil => rfl
  | cons a t ih => simp only [List.map_cons, hf a, ih]

lemma updPR_pullRequestID (q p : PullRequest) :
    (if p.pullRequestID == q.pullRequestID then
       { p with pullRequestName := q.pullRequestName,
                status := q.status, mergedAt := q.mergedAt }
     else p).pullRequestID = p.pullRequestID := by
  split <;> rfl

lemma updPR_authorID (q p : PullRequest) :
    (if p.pullRequestID == q.pullRequestID then
       { p with pullRequestName := q.pullRequestName,
                status := q.status, mergedAt := q.mergedAt }
     else p).authorID = p.authorID := by
  split <;> rfl

lemma StoreInv_UpdatePR (st : StoreState) (q : PullRequest)
    (hq : q.mergedAt.isSome ↔ q.status = .MERGED)
    (h : StoreInv st) : StoreInv (store.UpdatePR st q) := by
  unfold store.UpdatePR
  refine ⟨h.usersNodup, ?_, ?_, h.edgesHaveUser, ?_, ?_⟩
  · rw [map_proj_of_preserve _ _ (updPR_pullRequestID q)]
    exact h.prsNodup
  · intro e he
    obtain ⟨p, hp, hpe⟩ := h.edgesHavePR e he
    refine ⟨_, List.mem_map_of_mem _ hp, ?_⟩
    rw [updPR_pullRequestID]
    exact hpe
  · intro p2 hp2
    obtain ⟨p, hp, hpe⟩ := List.mem_map.mp hp2
    subst hpe
    rw [updPR_pullRequestID, updPR_authorID]
    exact h.authorNotReviewer p hp
  · intro p2 hp2
    obtain ⟨p, hp, hpe⟩ := List.mem_map.mp hp2
    subst hpe
    split
    · simpa using hq
    · exact h.mergedIff p hp

lemma StoreInv_MergePR (st : StoreState) (prID : String) (now : Nat)
    (h : StoreInv st) : StoreInv (service.MergePR st prID now).1 := by
  unfold service.MergePR
  cases hpr : store.GetPR st prID with
  | none => exact h
  | some pr =>
      by_cases hst : pr.status = .MERGED
      · simp only [if_pos hst]
        exact h
      · simp only [if_neg hst]
        exact StoreInv_UpdatePR st _ (by simp) h

lemma StoreInv_ReassignReviewer (st : StoreState) (prID oldUserID : String)
    (pick : Nat) (h : StoreInv st) :
    StoreInv (service.ReassignReviewer st prID oldUserID pick).1 := by
  unfold service.ReassignReviewer
  split
  · exact h
  · rename_i pr hpr
    split
    · exact h
    · split
      · simp only []
        split
        · exact h
        · exact h
      · rename_i oldReviewer hold
        simp only []
        split
        · exact h
        · split
          · exact h
          · rename_i a rest hAv
            simp only [store.AssignReviewer, store.RemoveReviewer]
            obtain ⟨hprmem, hprid⟩ := GetPR_eq_some st prID pr hpr
            set newReviewer := (a :: rest).get
              ⟨pick % (rest.length + 1),
               Nat.mod_lt pick (Nat.succ_pos rest.length)⟩ with hnr
            have hnew_mem : newReviewer ∈
                (store.GetActiveTeamMembers st oldReviewer.teamName
                  (some pr.authorID)).filter (fun m =>
                    !((store.GetPRReviewers st prID).any
                        (fun r => r.userID == m.userID)) &&
                    m.userID != oldUserID) := by
              rw [hAv]
              exact List.get_mem _ _ _
            have hnew_active : newReviewer ∈
                store.GetActiveTeamMembers st oldReviewer.teamName
                  (some pr.authorID) := List.mem_of_mem_filter hnew_mem
            have hnew_users := (mem_GetActiveTeamMembers st _ _ _ hnew_active).1
            have hnew_ne_author : newReviewer.userID ≠ pr.authorID :=
              (mem_GetActiveTeamMembers st _ _ _ hnew_active).2.2.2
            refine ⟨h.usersNodup, h.prsNodup, ?_, ?_, ?_, h.mergedIff⟩
            · intro e he
              rcases List.mem_append.mp he with hf | hn
              · exact h.edgesHavePR e (List.mem_of_mem_filter hf)
              · simp only [List.mem_singleton] at hn
                subst hn
                exact ⟨pr, hprmem, hprid⟩
            · intro e he
              rcases List.mem_append.mp he with hf | hn
              · exact h.edgesHaveUser e (List.mem_of_mem_filter hf)
              · simp only [List.mem_singleton] at hn
                subst hn
                exact ⟨newReviewer, hnew_users, rfl⟩
            · intro p hp hcontra
              rcases List.mem_append.mp hcontra with hf | hn
              · exact h.authorNotReviewer p hp (List.mem_of_mem_filter hf)
              · simp only [List.mem_singleton, Prod.mk.injEq] at hn
                have hpid : p.pullRequestID = prID := hn.1
                have hpeq : p = pr := by
                  apply List.inj_on_of_nodup_map h.prsNodup hp hprmem
                  rw [hpid, hprid]
                apply hnew_ne_author
                rw [← hn.2, hpeq]

lemma StoreInv_empty : StoreInv StoreState.empty := by
  refine ⟨?_, ?_, ?_, ?_, ?_, ?_⟩ <;> simp [StoreState.empty]

lemma StoreInv_step {st st2 : StoreState} (h : StoreInv st) (hs : Step st st2) :
    StoreInv st2 := by
  cases hs with
  | createTeam teamName members now =>
      exact StoreInv_CreateOrUpdateTeam st teamName members now h
  | setUserActive userID b => exact StoreInv_SetUserActive st userID b h
  | createPR prID prName authorID now shuffle hsh =>
      exact StoreInv_CreatePR st prID prName authorID now shuffle hsh h
  | mergePR prID now => exact StoreInv_MergePR st prID now h
  | reassign prID oldUserID pick =>
      exact StoreInv_ReassignReviewer st prID oldUserID pick h

lemma StoreInv_reachable {st : StoreState} (h : Reachable st) : StoreInv st := by
  induction h with
  | init => exact StoreInv_empty
  | step _ hs ih => exact StoreInv_step ih hs

lemma reach_stT : Reachable stT :=
  Reachable.step Reachable.init (Step.createTeam _ _ _ _)

lemma reach_stP : Reachable stP :=
  Reachable.step reach_stT
    (Step.createPR _ "pr1" "fix" "A" 1 id (fun l => List.Perm.refl l))

lemma reach_stT2 : Reachable stT2 :=
  Reachable.step Reachable.init (Step.createTeam _ _ _ _)

lemma reach_stP2 : Reachable stP2 :=
  Reachable.step reach_stT2
    (Step.createPR _ "pr2" "n" "A2" 1 id (fun l => List.Perm.refl l))

lemma reach_stM2 : Reachable stM2 :=
  Reachable.step reach_stP2 (Step.mergePR _ "pr2" 2)

/-- C6: the claim says `SetUserActive` fails with `NotFound` when the
user does not exist.  The code does not: `store.GetUser` returns
`(nil, nil)` for a missing user, `SetUserActive` checks only the error
and then writes through the nil `*store.User` pointer — a runtime
panic, not a `NotFound` return.  This theorem evaluates the model at
the failing input (empty store, unknown user `"u1"`): the outcome is
the nil dereference, not an error value. -/
theorem setUserActive_missing_user_nil_deref :
    service.SetUserActive StoreState.empty "u1" true =
      (StoreState.empty, .nilDereference) := rfl

/-- C8 counterexample: a team-creation request for an already-existing
team name (`"backend"` in state `stT`) is answered with HTTP status
400, not 409 as the claim states. -/
theorem postTeamAdd_conflict_is_400_not_409 :
    (handlers.PostTeamAdd stT "backend" [] 5).2 =
      { status := 400, errorCode := some "TEAM_EXISTS" } ∧
    (handlers.PostTeamAdd stT "backend" [] 5).2.status ≠ 409 := by
  refine ⟨rfl, ?_⟩
  decide

/-- C8 (amended): `handleServiceError` maps every state-conflict
service error (PR exists, PR merged, not assigned, no candidate) to
HTTP 409; however the team-exists failure of a team-creation request
bypasses `handleServiceError` and is answered with status 400 and
error code `TEAM_EXISTS`, leaving the store untouched. -/
theorem conflict_mapped_409_but_team_exists_400 :
    (∀ e : SvcError,
      (e = .ErrPRExists ∨ e = .ErrPRMerged ∨ e = .ErrNotAssigned ∨
        e = .ErrNoCandidate) →
      (handlers.handleServiceError e).status = 409) ∧
    (∀ (st : StoreState) (teamName : String) (members : List TeamMember)
        (now : Nat), store.GetTeam st teamName ≠ none →
      handlers.PostTeamAdd st teamName members now =
        (st, { status := 400, errorCode := some "TEAM_EXISTS" })) := by
  constructor
  · rintro e (rfl | rfl | rfl | rfl) <;> rfl
  · intro st teamName members now hne
    unfold handlers.PostTeamAdd service.CreateOrUpdateTeam
    cases hg : store.GetTeam st teamName with
    | none => exact absurd hg hne
    | some t => simp [hg]

/-- Witness for the amended C8 theorem at concrete inputs. -/
theorem conflict_mapped_409_but_team_exists_400_witness :
    (handlers.handleServiceError .ErrPRExists).status = 409 ∧
    handlers.PostTeamAdd stT "backend" [] 5 =
      (stT, { status := 400, errorCode := some "TEAM_EXISTS" }) :=
  ⟨conflict_mapped_409_but_team_exists_400.1 .ErrPRExists (Or.inl rfl),
   conflict_mapped_409_but_team_exists_400.2 stT "backend" [] 5 (by decide)⟩

lemma upsertMembersFallible_error (members : List TeamMember)
    (st : StoreState) (teamName : String) (now : Nat) (failAt : Nat → Bool)
    (k : Nat) (e : OpError)
    (h : (service.upsertMembersFallible st teamName members now failAt k).2 =
      .error e) : e = .storage := by
  induction members generalizing st k with
  | nil => simp [service.upsertMembersFallible] at h
  | cons m rest ih =>
      unfold service.upsertMembersFallible at h
      split at h
      · simp at h
        exact h.symm
      · exact ih _ _ h

lemma assignReviewersFallible_error (reviewers : List User)
    (st : StoreState) (prID : String) (failAt : Nat → Bool) (k : Nat)
    (e : OpError)
    (h : (service.assignReviewersFallible st prID reviewers failAt k).2 =
      .error e) : e = .storage := by
  induction reviewers generalizing st k with
  | nil => simp [service.assignReviewersFallible] at h
  | cons r rest ih =>
      unfold service.assignReviewersFallible at h
      split at h
      · simp at h
        exact h.symm
      · exact ih _ _ h

lemma upsertMembersFallible_no_faults (members : List TeamMember)
    (st : StoreState) (teamName : String) (now : Nat) (k : Nat) :
    service.upsertMembersFallible st teamName members now (fun _ => false) k =
      (members.foldl (fun s m =>
        store.CreateOrUpdateUser s
          { userID := m.userID, username := m.username,
            isActive := m.isActive, teamName := teamName, createdAt := 0 }
          now) st, .ok ()) := by
  induction members generalizing st k with
  | nil => rfl
  | cons m rest ih =>
      unfold service.upsertMembersFallible
      simp only [Bool.false_eq_true, if_false, List.foldl_cons]
      exact ih _ _

lemma assignReviewersFallible_no_faults (reviewers : List User)
    (st : StoreState) (prID : String) (k : Nat) :
    service.assignReviewersFallible st prID reviewers (fun _ => false) k =
      (reviewers.foldl (fun s r => store.AssignReviewer s prID r.userID) st,
       .ok ()) := by
  induction reviewers generalizing st k with
  | nil => rfl
  | cons r rest ih =>
      unfold service.assignReviewersFallible
      simp only [Bool.false_eq_true, if_false, List.foldl_cons]
      exact ih _ _

lemma CreateOrUpdateTeamFallible_no_faults (st : StoreState)
    (teamName : String) (members : List TeamMember) (now : Nat) :
    service.CreateOrUpdateTeamFallible st teamName members now
        (fun _ => false) =
      ((service.CreateOrUpdateTeam st teamName members now).1,
       (service.CreateOrUpdateTeam st teamName members now).2.mapError
         OpError.svc) := by
  unfold service.CreateOrUpdateTeamFallible service.CreateOrUpdateTeam
  cases hg : store.GetTeam st teamName with
  | some t => simp [hg, Except.mapError]
  | none => simp [hg, upsertMembersFallible_no_faults, Except.mapError]

lemma CreatePRFallible_no_faults (st : StoreState)
    (prID prName authorID : String) (now : Nat)
    (shuffle : List User → List User) :
    service.CreatePRFallible st prID prName authorID now shuffle
        (fun _ => false) =
      ((service.CreatePR st prID prName authorID now shuffle).1,
       (service.CreatePR st prID prName authorID now shuffle).2.mapError
         OpError.svc) := by
  unfold service.CreatePRFallible service.CreatePR
  cases hpr : store.GetPR st prID with
  | some p => simp [hpr, Except.mapError]
  | none =>
      cases hau : store.GetUser st authorID with
      | none => simp [hpr, hau, Except.mapError]
      | some author =>
          simp [hpr, hau, assignReviewersFallible_no_faults, Except.mapError]

/-- C7 counterexample: the claim "a failing CreatePR leaves no PR
record and no reviewer-assignment edges behind" is false under a
storage failure.  Concretely, on team `backend` a `CreatePR` of `prX`
whose first reviewer-edge insert (storage call 4) fails reports an
error, yet the PR record — absent beforehand — is left committed. -/
theorem createPR_storage_failure_partial_commit :
    (service.CreatePRFallible stT "prX" "x" "A" 3 id (fun k => k == 4)).2 =
      .error .storage ∧
    store.GetPR stT "prX" = none ∧
    store.GetPR (service.CreatePRFallible stT "prX" "x" "A" 3 id
        (fun k => k == 4)).1 "prX" =
      some { pullRequestID := "prX", pullRequestName := "x", authorID := "A",
             status := .OPEN, createdAt := 3, mergedAt := none } ∧
    ((service.CreatePRFallible stT "prX" "x" "A" 3 id (fun k => k == 4)).1 =
      stT) = False := by
  refine ⟨rfl, rfl, rfl, ?_⟩
  simp only [eq_iff_iff, iff_false]
  decide

/-- C7 (amended): sentinel-error atomicity.  Whenever an engine
operation reports one of the service's own sentinel errors (or
`SetUserActive`'s nil-dereference outcome), none of its effects have
been committed, even when arbitrary storage calls fail — every
sentinel error is raised before the operation's first write.  Full
failure-atomicity does not hold: the write sequences are not
transactional, so a mid-sequence storage failure is reported as an
error while the operation's earlier writes remain committed (last
conjunct; beyond the spec's §5 reassignment caveat). -/
theorem engine_sentinel_errors_atomic :
    (∀ (st : StoreState) (teamName : String) (members : List TeamMember)
        (now : Nat) (failAt : Nat → Bool) (e : SvcError),
      (service.CreateOrUpdateTeamFallible st teamName members now failAt).2 =
        .error (.svc e) →
      (service.CreateOrUpdateTeamFallible st teamName members now failAt).1 =
        st) ∧
    (∀ (st : StoreState) (userID : String) (b : Bool) (failAt : Nat → Bool),
      (service.SetUserActiveFallible st userID b failAt).2 =
        .nilDereference →
      (service.SetUserActiveFallible st userID b failAt).1 = st) ∧
    (∀ (st : StoreState) (prID prName authorID : String) (now : Nat)
        (shuffle : List User → List User) (failAt : Nat → Bool)
        (e : SvcError),
      (service.CreatePRFallible st prID prName authorID now shuffle
          failAt).2 = .error (.svc e) →
      (service.CreatePRFallible st prID prName authorID now shuffle
          failAt).1 = st) ∧
    (∀ (st : StoreState) (prID : String) (now : Nat) (failAt : Nat → Bool)
        (e : SvcError),
      (service.MergePRFallible st prID now failAt).2 = .error (.svc e) →
      (service.MergePRFallible st prID now failAt).1 = st) ∧
    (∀ (st : StoreState) (prID oldUserID : String) (pick : Nat)
        (failAt : Nat → Bool) (e : SvcError),
      (service.ReassignReviewerFallible st prID oldUserID pick failAt).2 =
        .error (.svc e) →
      (service.ReassignReviewerFallible st prID oldUserID pick failAt).1 =
        st) ∧
    (∃ (st : StoreState) (prID prName authorID : String) (now : Nat)
        (failAt : Nat → Bool),
      (service.CreatePRFallible st prID prName authorID now id failAt).2 =
        .error .storage ∧
      store.GetPR st prID = none ∧
      ((service.CreatePRFallible st prID prName authorID now id failAt).1 =
        st) = False ∧
      store.GetPR (service.CreatePRFallible st prID prName authorID now id
        failAt).1 prID ≠ none) := by
  refine ⟨?_, ?_, ?_, ?_, ?_, ?_⟩
  · intro st teamName members now failAt e
    unfold service.CreateOrUpdateTeamFallible
    split
    · intro _; rfl
    · split
      · intro hE; simp at hE
      · simp only []
        split
        · rename_i st2 e2 heq
          intro hE
          simp only [Except.error.injEq] at hE
          have := upsertMembersFallible_error members _ teamName now failAt 2
            e2 (by rw [heq])
          rw [this] at hE
          simp at hE
        · intro hE; simp at hE
  · intro st userID b failAt
    unfold service.SetUserActiveFallible
    split
    · intro hE; simp at hE
    · split
      · intro _; rfl
      · split
        · intro hE; simp at hE
        · intro hE; simp at hE
  · intro st prID prName authorID now shuffle failAt e
    unfold service.CreatePRFallible
    split
    · intro hE; simp at hE
    · split
      · intro _; rfl
      · split
        · intro hE; simp at hE
        · split
          · intro _; rfl
          · split
            · intro hE; simp at hE
            · simp only []
              split
              · intro hE; simp at hE
              · split
                · rename_i st2 e2 heq
                  intro hE
                  simp only [Except.error.injEq] at hE
                  have := assignReviewersFallible_error _ _ prID failAt 4 e2
                    (by rw [heq])
                  rw [this] at hE
                  simp at hE
                · intro hE; simp at hE
  · intro st prID now failAt e
    unfold service.MergePRFallible
    split
    · intro hE; simp at hE
    · split
      · intro _; rfl
      · split
        · split
          · intro hE; simp at hE
          · intro hE; simp at hE
        · simp only []
          split
          · intro hE; simp at hE
          · split
            · intro hE; simp at hE
            · intro hE; simp at hE
  · intro st prID oldUserID pick failAt e
    unfold service.ReassignReviewerFallible
    split
    · intro hE; simp at hE
    · split
      · intro _; rfl
      · split
        · intro _; rfl
        · split
          · intro hE; simp at hE
          · simp only []
            split
            · intro _; rfl
            · split
              · intro hE; simp at hE
              · split
                · intro _; rfl
                · split
                  · intro hE; simp at hE
                  · split
                    · intro _; rfl
                    · split
                      · intro hE; simp at hE
                      · split
                        · intro hE; simp at hE
                        · split
                          · intro hE; simp at hE
                          · intro hE; simp at hE
  · refine ⟨stT, "prX", "x", "A", 3, (fun k => k == 4), rfl, rfl, ?_, ?_⟩
    · simp only [eq_iff_iff, iff_false]
      decide
    · decide

/-- Witness for the amended C7 at concrete sentinel-error inputs —
each under a live fault oracle or a failure-free one: duplicate team
name, missing user, duplicate PR id, merge of a missing PR,
reassignment on a merged PR — each leaves the store exactly as it
was. -/
theorem engine_sentinel_errors_atomic_witness :
    ((service.CreateOrUpdateTeamFallible stT "backend" [] 5
        (fun _ => false)).1 = stT) ∧
    ((service.SetUserActiveFallible StoreState.empty "u1" true
        (fun _ => false)).1 = StoreState.empty) ∧
    ((service.CreatePRFallible stP "pr1" "again" "A" 9 id
        (fun k => k == 4)).1 = stP) ∧
    ((service.MergePRFallible StoreState.empty "nope" 9
        (fun _ => false)).1 = StoreState.empty) ∧
    ((service.ReassignReviewerFallible stM2 "pr2" "B2" 0
        (fun _ => false)).1 = stM2) :=
  ⟨engine_sentinel_errors_atomic.1 stT "backend" [] 5 (fun _ => false)
     .ErrTeamExists rfl,
   engine_sentinel_errors_atomic.2.1 StoreState.empty "u1" true
     (fun _ => false) rfl,
   engine_sentinel_errors_atomic.2.2.1 stP "pr1" "again" "A" 9 id
     (fun k => k == 4) .ErrPRExists rfl,
   engine_sentinel_errors_atomic.2.2.2.1 StoreState.empty "nope" 9
     (fun _ => false) .ErrNotFound rfl,
   engine_sentinel_errors_atomic.2.2.2.2.1 stM2 "pr2" "B2" 0
     (fun _ => false) .ErrPRMerged rfl⟩

/-- C3: `ReassignReviewer` fails with `PRMerged` on an already-merged
PR, with `NotAssigned` when the old user is not currently an assigned
reviewer, and with `NoCandidate` when the eligible replacement pool is
empty; in each failure case the returned store is exactly the input
store, so no assignment edge is added or removed. -/
theorem reassign_failure_modes :
    (∀ (st : StoreState) (prID oldUserID : String) (pick : Nat)
        (pr : PullRequest), store.GetPR st prID = some pr →
      pr.status = .MERGED →
      service.ReassignReviewer st prID oldUserID pick =
        (st, .error .ErrPRMerged)) ∧
    (∀ (st : StoreState) (prID oldUserID : String) (pick : Nat)
        (pr : PullRequest), store.GetPR st prID = some pr →
      pr.status ≠ .MERGED →
      (∀ r ∈ store.GetPRReviewers st prID, r.userID ≠ oldUserID) →
      service.ReassignReviewer st prID oldUserID pick =
        (st, .error .ErrNotAssigned)) ∧
    (∀ (st : StoreState) (prID oldUserID : String) (pick : Nat)
        (pr : PullRequest) (oldReviewer : User),
      store.GetPR st prID = some pr →
      pr.status ≠ .MERGED →
      (∃ r ∈ store.GetPRReviewers st prID, r.userID = oldUserID) →
      store.GetUser st oldUserID = some oldReviewer →
      (store.GetActiveTeamMembers st oldReviewer.teamName
          (some pr.authorID)).filter (fun m =>
        !((store.GetPRReviewers st prID).any
            (fun r => r.userID == m.userID)) &&
        m.userID != oldUserID) = [] →
      service.ReassignReviewer st prID oldUserID pick =
        (st, .error .ErrNoCandidate)) := by
  refine ⟨?_, ?_, ?_⟩
  · intro st prID oldUserID pick pr hpr hm
    unfold service.ReassignReviewer
    rw [hpr]
    simp [hm]
  · intro st prID oldUserID pick pr hpr hm hno
    have hb : (store.GetPRReviewers st prID).any
        (fun r => r.userID == oldUserID) = false := by
      rw [List.any_eq_false]
      intro r hr
      simpa using hno r hr
    unfold service.ReassignReviewer
    rw [hpr]
    simp [hm, hb]
  · intro st prID oldUserID pick pr oldReviewer hpr hm hyes hold hfilter
    have hb : (store.GetPRReviewers st prID).any
        (fun r => r.userID == oldUserID) = true := by
      rw [List.any_eq_true]
      obtain ⟨r, hr, hre⟩ := hyes
      exact ⟨r, hr, by simp [hre]⟩
    unfold service.ReassignReviewer
    rw [hpr]
    simp [hm, hb, hold, hfilter]

/-- Witness for C3 at concrete inputs: reassign on the merged `pr2`,
reassign of the unassigned author `A2`, and reassign of `B2` in a
two-person team with nobody left to take over. -/
theorem reassign_failure_modes_witness :
    service.ReassignReviewer stM2 "pr2" "B2" 3 =
      (stM2, .error .ErrPRMerged) ∧
    service.ReassignReviewer stP2 "pr2" "A2" 3 =
      (stP2, .error .ErrNotAssigned) ∧
    service.ReassignReviewer stP2 "pr2" "B2" 3 =
      (stP2, .error .ErrNoCandidate) :=
  ⟨reassign_failure_modes.1 stM2 "pr2" "B2" 3
      { pullRequestID := "pr2", pullRequestName := "n", authorID := "A2",
        status := .MERGED, createdAt := 1, mergedAt := some 2 }
      rfl rfl,
   reassign_failure_modes.2.1 stP2 "pr2" "A2" 3
      { pullRequestID := "pr2", pullRequestName := "n", authorID := "A2",
        status := .OPEN, createdAt := 1, mergedAt := none }
      rfl (by decide) (by decide),
   reassign_failure_modes.2.2 stP2 "pr2" "B2" 3
      { pullRequestID := "pr2", pullRequestName := "n", authorID := "A2",
        status := .OPEN, createdAt := 1, mergedAt := none }
      { userID := "B2", username := "b", isActive := true, teamName := "t2",
        createdAt := 0 }
      rfl (by decide) (by decide) rfl rfl⟩

lemma GetPR_UpdatePR (st : StoreState) (q : PullRequest) (prID : String) :
    store.GetPR (store.UpdatePR st q) prID =
      (store.GetPR st prID).map (fun p =>
        if p.pullRequestID == q.pullRequestID then
          { p with pullRequestName := q.pullRequestName,
                   status := q.status, mergedAt := q.mergedAt }
        else p) := by
  unfold store.GetPR store.UpdatePR
  exact find?_map_of_pred_eq _ _ _ (fun p => by rw [updPR_pullRequestID])

/-- C4: `MergePR` is idempotent.  If one `MergePR` call succeeds
(whether it performed the merge or found the PR already merged), then
running `MergePR` again on the resulting store — at any later time
`now2` — returns the very same store and the very same result: no
storage mutation, no second `merged_at` write, and identical status,
timestamps, and reviewer set. -/
theorem mergePR_idempotent (st st1 : StoreState) (prID : String)
    (now1 now2 : Nat) (res1 : PullRequestWithReviewers)
    (h : service.MergePR st prID now1 = (st1, .ok res1)) :
    service.MergePR st1 prID now2 = (st1, .ok res1) := by
  unfold service.MergePR at h ⊢
  cases hpr : store.GetPR st prID with
  | none => rw [hpr] at h; simp at h
  | some pr =>
      rw [hpr] at h
      by_cases hst : pr.status = .MERGED
      · simp only [if_pos hst] at h
        obtain ⟨hst1, hres⟩ := Prod.mk.injEq .. ▸ h
        rw [← hst1, hpr]
        simp only [if_pos hst]
        rw [hres]
      · simp only [if_neg hst] at h
        obtain ⟨hst1, hres⟩ := Prod.mk.injEq .. ▸ h
        rw [hst1] at hres
        have hget : store.GetPR st1 prID =
            some { pr with status := .MERGED, mergedAt := some now1 } := by
          rw [← hst1, GetPR_UpdatePR, hpr]
          simp
        rw [hget]
        simp only [hres]
        simp

/-- Witness for C4: merging the already-merged `pr2` at a later time
returns the same store and the same result as the first merge. -/
theorem mergePR_idempotent_witness :
    service.MergePR stM2 "pr2" 7 =
      (stM2, .ok
        { pullRequest :=
            { pullRequestID := "pr2", pullRequestName := "n",
              authorID := "A2", status := .MERGED, createdAt := 1,
              mergedAt := some 2 },
          assignedReviewers :=
            [{ userID := "B2", username := "b", isActive := true,
               teamName := "t2", createdAt := 0 }] }) :=
  mergePR_idempotent stP2 stM2 "pr2" 2 7 _ rfl

lemma find?_append_none {α : Type} (l₁ l₂ : List α) (p : α → Bool)
    (h : l₁.find? p = none) : (l₁ ++ l₂).find? p = l₂.find? p := by
  induction l₁ with
  | nil => simp
  | cons a t ih =>
      cases hpa : p a with
      | true => simp [List.find?_cons, hpa] at h
      | false =>
          simp only [List.find?_cons, hpa] at h
          simp only [List.cons_append, List.find?_cons, hpa]
          exact ih h

/-- C1: a successful `CreatePR` assigns a reviewer list that is a
subset of the candidate pool (active members of the author's team,
author excluded), has pairwise-distinct elements, and has length
`min 2 (pool size)`; with an empty pool the PR is still created (no
error) with zero reviewers, and the stored PR is the returned one with
status `OPEN`. -/
theorem createPR_selection_spec (st : StoreState)
    (prID prName authorID : String) (now : Nat)
    (shuffle : List User → List User) (author : User)
    (hsh : ∀ l, (shuffle l).Perm l)
    (hnodup : (st.users.map User.userID).Nodup)
    (hfresh : store.GetPR st prID = none)
    (hauthor : store.GetUser st authorID = some author) :
    ∃ (st2 : StoreState) (res : PullRequestWithReviewers),
      service.CreatePR st prID prName authorID now shuffle = (st2, .ok res) ∧
      (∀ r ∈ res.assignedReviewers,
        r ∈ store.GetActiveTeamMembers st author.teamName (some authorID)) ∧
      res.assignedReviewers.Nodup ∧
      (res.assignedReviewers.map User.userID).Nodup ∧
      res.assignedReviewers.length =
        min 2 (store.GetActiveTeamMembers st author.teamName
          (some authorID)).length ∧
      store.GetPR st2 prID = some res.pullRequest ∧
      res.pullRequest.status = .OPEN ∧
      res.pullRequest.mergedAt = none ∧
      (store.GetActiveTeamMembers st author.teamName (some authorID) = [] →
        res.assignedReviewers = []) := by
  have hpoolN : ((store.GetActiveTeamMembers st author.teamName
      (some authorID)).map User.userID).Nodup := by
    unfold store.GetActiveTeamMembers
    exact List.Nodup.sublist ((List.filter_sublist _).map _) hnodup
  have hselN : (((if (store.GetActiveTeamMembers st author.teamName
      (some authorID)).length > 0 then
        (shuffle (store.GetActiveTeamMembers st author.teamName
          (some authorID))).take (min 2 (store.GetActiveTeamMembers st
            author.teamName (some authorID)).length)
      else [])).map User.userID).Nodup := by
    split
    · refine List.Nodup.sublist ((List.take_sublist _ _).map _) ?_
      exact ((hsh _).map _).nodup_iff.mpr hpoolN
    · simp
  unfold service.CreatePR
  rw [hfresh, hauthor]
  simp only []
  refine ⟨_, _, rfl, ?_, ?_, ?_, ?_, ?_, rfl, rfl, ?_⟩
  · intro r hr
    exact mem_selected (hsh _) hr
  · exact List.Nodup.of_map _ hselN
  · exact hselN
  · split
    · rw [List.length_take, (hsh _).length_eq, Nat.min_assoc, Nat.min_self]
    · rename_i hlen
      simp only [gt_iff_lt, Nat.not_lt, Nat.le_zero] at hlen
      simp [hlen]
  · rw [foldl_assign_eq]
    unfold store.GetPR store.CreatePR
    rw [find?_append_none _ _ _ hfresh]
    simp [List.find?_cons]
  · intro h0
    rw [h0]
    simp

/-- Witness for C1: creating `pr9` by author `A` on the four-member
team `backend`. -/
theorem createPR_selection_spec_witness :
    ∃ (st2 : StoreState) (res : PullRequestWithReviewers),
      service.CreatePR stT "pr9" "x" "A" 3 id = (st2, .ok res) ∧
      (∀ r ∈ res.assignedReviewers,
        r ∈ store.GetActiveTeamMembers stT "backend" (some "A")) ∧
      res.assignedReviewers.Nodup ∧
      (res.assignedReviewers.map User.userID).Nodup ∧
      res.assignedReviewers.length =
        min 2 (store.GetActiveTeamMembers stT "backend" (some "A")).length ∧
      store.GetPR st2 "pr9" = some res.pullRequest ∧
      res.pullRequest.status = .OPEN ∧
      res.pullRequest.mergedAt = none ∧
      (store.GetActiveTeamMembers stT "backend" (some "A") = [] →
        res.assignedReviewers = []) :=
  createPR_selection_spec stT "pr9" "x" "A" 3 id
    { userID := "A", username := "a", isActive := true,
      teamName := "backend", createdAt := 0 }
    (fun l => List.Perm.refl l) (by decide) rfl rfl

/-- C2: a successful `ReassignReviewer` picks the replacement from the
active members of the old reviewer's team excluding the PR author,
excluding every currently assigned reviewer and excluding the old
reviewer itself; it removes exactly the old reviewer's edge, appends
the new reviewer's edge, and returns the updated reviewer set together
with the new reviewer's id. -/
theorem reassign_success_spec (st st2 : StoreState) (prID oldUserID : String)
    (pick : Nat) (res : PullRequestWithReviewers) (newID : String)
    (h : service.ReassignReviewer st prID oldUserID pick =
      (st2, .ok (res, newID))) :
    ∃ (pr : PullRequest) (oldReviewer newReviewer : User),
      store.GetPR st prID = some pr ∧
      pr.status ≠ .MERGED ∧
      (∃ r ∈ store.GetPRReviewers st prID, r.userID = oldUserID) ∧
      store.GetUser st oldUserID = some oldReviewer ∧
      newReviewer ∈ store.GetActiveTeamMembers st oldReviewer.teamName
        (some pr.authorID) ∧
      (∀ r ∈ store.GetPRReviewers st prID, r.userID ≠ newReviewer.userID) ∧
      newReviewer.userID ≠ oldUserID ∧
      newID = newReviewer.userID ∧
      st2.prReviewers = st.prReviewers.filter
          (fun e => !(e.1 == prID && e.2 == oldUserID)) ++
        [(prID, newReviewer.userID)] ∧
      st2.users = st.users ∧
      st2.prs = st.prs ∧
      res.assignedReviewers = store.GetPRReviewers st2 prID ∧
      res.pullRequest = pr := by
  unfold service.ReassignReviewer at h
  split at h
  · simp at h
  · rename_i pr hpr
    split at h
    · simp at h
    · rename_i hnm
      split at h
      · simp only [] at h
        split at h
        · simp at h
        · simp at h
      · rename_i oldReviewer hold
        simp only [] at h
        split at h
        · simp at h
        · rename_i hnotassigned
          split at h
          · simp at h
          · rename_i a rest hAv
            rw [Prod.mk.injEq] at h
            obtain ⟨hst2, hok⟩ := h
            rw [Except.ok.injEq, Prod.mk.injEq] at hok
            obtain ⟨hres, hnew⟩ := hok
            have hany : (store.GetPRReviewers st prID).any
                (fun r => r.userID == oldUserID) = true := by
              rcases hb : (store.GetPRReviewers st prID).any
                  (fun r => r.userID == oldUserID) with _ | _
              · exact absurd (by rw [hb]; rfl) hnotassigned
              · rfl
            set newReviewer := (a :: rest).get
              ⟨pick % (rest.length + 1),
               Nat.mod_lt pick (Nat.succ_pos rest.length)⟩ with hnr
            have hnew_mem : newReviewer ∈
                (store.GetActiveTeamMembers st oldReviewer.teamName
                  (some pr.authorID)).filter (fun m =>
                    !((store.GetPRReviewers st prID).any
                        (fun r => r.userID == m.userID)) &&
                    m.userID != oldUserID) := by
              rw [hAv]
              exact List.get_mem _ _ _
            have hnew_active : newReviewer ∈
                store.GetActiveTeamMembers st oldReviewer.teamName
                  (some pr.authorID) := List.mem_of_mem_filter hnew_mem
            have hcond := (List.mem_filter.mp hnew_mem).2
            simp only [Bool.and_eq_true, Bool.not_eq_true', bne_iff_ne,
              ne_eq] at hcond
            refine ⟨pr, oldReviewer, newReviewer, hpr, hnm, ?_, hold,
              hnew_active, ?_, hcond.2, hnew.symm, ?_, ?_, ?_, ?_, ?_⟩
            · obtain ⟨r, hr, hre⟩ := List.any_eq_true.mp hany
              exact ⟨r, hr, by simpa using hre⟩
            · intro r hr hre
              have := List.any_eq_false.mp hcond.1 r hr
              simp [hre] at this
            · rw [← hst2]
              rfl
            · rw [← hst2]
              rfl
            · rw [← hst2]
              rfl
            · rw [← hres, ← hst2]
            · rw [← hres]


/-- Witness for C2: on `pr1` (reviewers `B`, `C`) the reviewer `B` is
replaced by `D`, the only eligible candidate. -/
theorem reassign_success_spec_witness :
    ∃ (pr : PullRequest) (oldReviewer newReviewer : User),
      store.GetPR stP "pr1" = some pr ∧
      pr.status ≠ .MERGED ∧
      (∃ r ∈ store.GetPRReviewers stP "pr1", r.userID = "B") ∧
      store.GetUser stP "B" = some oldReviewer ∧
      newReviewer ∈ store.GetActiveTeamMembers stP oldReviewer.teamName
        (some pr.authorID) ∧
      (∀ r ∈ store.GetPRReviewers stP "pr1", r.userID ≠ newReviewer.userID) ∧
      newReviewer.userID ≠ "B" ∧
      "D" = newReviewer.userID ∧
      stR.prReviewers = stP.prReviewers.filter
          (fun e => !(e.1 == "pr1" && e.2 == "B")) ++
        [("pr1", newReviewer.userID)] ∧
      stR.users = stP.users ∧
      stR.prs = stP.prs ∧
      resR.assignedReviewers = store.GetPRReviewers stR "pr1" ∧
      resR.pullRequest = pr :=
  reassign_success_spec stP stR "pr1" "B" 0 resR "D" rfl

/-- C5: in every reachable store state, no pull request has its own
author among its assigned reviewers — neither as a raw
`pr_reviewers` edge nor in the reviewer list computed by
`GetPRReviewers`. -/
theorem author_never_own_reviewer (st : StoreState) (h : Reachable st) :
    ∀ p ∈ st.prs, (p.pullRequestID, p.authorID) ∉ st.prReviewers ∧
      ∀ r ∈ store.GetPRReviewers st p.pullRequestID,
        r.userID ≠ p.authorID := by
  have hinv := StoreInv_reachable h
  intro p hp
  refine ⟨hinv.authorNotReviewer p hp, ?_⟩
  intro r hr hre
  unfold store.GetPRReviewers at hr
  rw [List.mem_filter] at hr
  obtain ⟨hru, hany⟩ := hr
  rw [List.any_eq_true] at hany
  obtain ⟨e, he, hee⟩ := hany
  simp only [Bool.and_eq_true, beq_iff_eq] at hee
  have heq : e = (p.pullRequestID, p.authorID) :=
    Prod.ext hee.1 (by rw [hee.2, hre])
  exact hinv.authorNotReviewer p hp (heq ▸ he)

/-- Witness for C5 at the concrete reachable state `stP` (team
`backend`, `pr1` authored by `A` with reviewers `B`, `C`): the edge
`("pr1", "A")` is absent. -/
theorem author_never_own_reviewer_witness :
    ({ pullRequestID := "pr1", pullRequestName := "fix", authorID := "A",
       status := .OPEN, createdAt := 1, mergedAt := none } : PullRequest)
        ∈ stP.prs ∧
      ("pr1", "A") ∉ stP.prReviewers :=
  ⟨by decide,
   (author_never_own_reviewer stP reach_stP
     { pullRequestID := "pr1", pullRequestName := "fix", authorID := "A",
       status := .OPEN, createdAt := 1, mergedAt := none } (by decide)).1⟩

/-- C10: in every reachable store state a pull request's `merged_at`
is present exactly when its status is `MERGED`; moreover every PR a
successful `CreatePR` returns starts with status `OPEN` and no
`merged_at`. -/
theorem mergedAt_iff_status_merged (st : StoreState) (h : Reachable st) :
    (∀ p ∈ st.prs, p.mergedAt.isSome ↔ p.status = .MERGED) ∧
    (∀ (prID prName authorID : String) (now : Nat)
        (shuffle : List User → List User) (st2 : StoreState)
        (res : PullRequestWithReviewers),
      service.CreatePR st prID prName authorID now shuffle =
        (st2, .ok res) →
      res.pullRequest.status = .OPEN ∧ res.pullRequest.mergedAt = none) := by
  refine ⟨fun p hp => (StoreInv_reachable h).mergedIff p hp, ?_⟩
  intro prID prName authorID now sh st2 res hc
  unfold service.CreatePR at hc
  split at hc
  · simp at hc
  · split at hc
    · simp at hc
    · rw [Prod.mk.injEq] at hc
      obtain ⟨hst2, hok⟩ := hc
      rw [Except.ok.injEq] at hok
      rw [← hok]
      exact ⟨rfl, rfl⟩

/-- Witness for C10 at the concrete reachable state `stM2`, whose only
PR is merged at time 2 and carries `merged_at`. -/
theorem mergedAt_iff_status_merged_witness :
    ({ pullRequestID := "pr2", pullRequestName := "n", authorID := "A2",
       status := .MERGED, createdAt := 1, mergedAt := some 2 } : PullRequest)
        ∈ stM2.prs ∧
      ((some 2 : Option Nat).isSome ↔ (PRStatus.MERGED = PRStatus.MERGED)) :=
  ⟨by decide,
   (mergedAt_iff_status_merged stM2 reach_stM2).1
     { pullRequestID := "pr2", pullRequestName := "n", authorID := "A2",
       status := .MERGED, createdAt := 1, mergedAt := some 2 } (by decide)⟩

/-- C9: `GetUserAssignedPRs` returns — without ever failing — exactly
the PRs on which the user holds a reviewer-assignment edge, each
paired with that PR's full current reviewer set; a user with no edges
gets the empty list, and in any reachable state an unknown userID also
gets the empty list (there is no existence check). -/
theorem getUserAssignedPRs_spec (st : StoreState) (userID : String) :
    service.GetUserAssignedPRs st userID =
      (st, .ok ((store.GetUserAssignedPRs st userID).map (fun p =>
        { pullRequest := p,
          assignedReviewers := store.GetPRReviewers st p.pullRequestID }))) ∧
    (∀ p : PullRequest, p ∈ store.GetUserAssignedPRs st userID ↔
      p ∈ st.prs ∧
        ∃ e ∈ st.prReviewers, e.1 = p.pullRequestID ∧ e.2 = userID) ∧
    ((∀ e ∈ st.prReviewers, e.2 ≠ userID) →
      store.GetUserAssignedPRs st userID = []) ∧
    (Reachable st → (∀ u ∈ st.users, u.userID ≠ userID) →
      store.GetUserAssignedPRs st userID = []) := by
  have hempty : (∀ e ∈ st.prReviewers, e.2 ≠ userID) →
      store.GetUserAssignedPRs st userID = [] := by
    intro hno
    unfold store.GetUserAssignedPRs
    rw [List.filter_eq_nil_iff]
    intro p hp
    rw [Bool.not_eq_true, List.any_eq_false]
    intro e he
    simp only [Bool.and_eq_true, beq_iff_eq, not_and]
    intro _
    exact hno e he
  refine ⟨rfl, ?_, hempty, ?_⟩
  · intro p
    unfold store.GetUserAssignedPRs
    rw [List.mem_filter, List.any_eq_true]
    constructor
    · rintro ⟨hp, e, he, hee⟩
      simp only [Bool.and_eq_true, beq_iff_eq] at hee
      exact ⟨hp, e, he, hee.1, hee.2⟩
    · rintro ⟨hp, e, he, h1, h2⟩
      exact ⟨hp, e, he, by simp [h1, h2]⟩
  · intro hreach hnouser
    apply hempty
    intro e he hee
    obtain ⟨u, hu, hue⟩ := (StoreInv_reachable hreach).edgesHaveUser e he
    exact hnouser u hu (by rw [hue, hee])

/-- Witness for C9: the unknown user `"Z"` in the reachable state
`stP2` is assigned nothing and receives an empty, error-free reply. -/
theorem getUserAssignedPRs_spec_witness :
    store.GetUserAssignedPRs stP2 "Z" = [] ∧
    service.GetUserAssignedPRs stP2 "Z" = (stP2, .ok []) := by
  have h := getUserAssignedPRs_spec stP2 "Z"
  have he : store.GetUserAssignedPRs stP2 "Z" = [] :=
    h.2.2.2 reach_stP2 (by decide)
  exact ⟨he, by rw [h.1, he]; rfl⟩
